import Mathlib

/-!
Verification of the trading pipeline implemented in `trading_system.py`:
data fetching with period fallback (`DataFetcher.fetch_data`), indicator and
signal generation (`TradingStrategy`), label preparation and model training
(`MLModel`), and the reporting / orchestration layer (`GoogleSheetsLogger`,
`TelegramNotifier`, `TradingSystem.run_system`).

External collaborators (the market-data provider, the sklearn estimator, the
spreadsheet and messaging endpoints) are modelled as oracles supplied as
arguments; everything the repository itself computes is embedded directly.
Prices are rationals; a missing value (pandas `NaN` or `None`) is `Option.none`.
-/

set_option maxRecDepth 100000

namespace Trading

/-! ### Data model -/

/-- One row of a price series: the fields of the provider history that the
pipeline actually reads (`Close` for indicators, `Volume` as an ML feature). -/
structure Bar where
  close : ℚ
  volume : ℚ
  deriving DecidableEq, Repr

/-! ### Series fetcher (`DataFetcher.fetch_data`)

The provider is an oracle giving, for each period string, the outcome of the
`ticker.info` call and of the `ticker.history` call.  `InfoRes.noInfo` is the
`if not info` branch; `rateLimited` is an exception whose message contains
`"429"` or `"Too Many Requests"`; `err` is any other exception. -/

inductive InfoRes
  | ok
  | noInfo
  | rateLimited
  | err
  deriving DecidableEq, Repr

inductive HistRes
  | rows (rs : List Bar)
  | rateLimited
  | err
  deriving DecidableEq, Repr

structure Provider where
  info : String → InfoRes
  hist : String → HistRes

/-- One iteration of the `for period in periods_to_try` loop body for one
symbol.  `none` means the loop falls through to the next period: an empty
`info` and a rate-limited `info` both `continue`; any other `info` exception
falls through to the `history` call; a rate-limited or failed `history` call
and an empty history all reach the next iteration (the rate-limit branches
additionally sleep five seconds, which has no observable effect here).
`some rs` is the non-empty history that sets `symbol_data_fetched` and breaks
out of the loop. -/
def attemptResult (pr : Provider) (p : String) : Option (List Bar) :=
  if pr.info p = .noInfo ∨ pr.info p = .rateLimited then none
  else
    match pr.hist p with
    | .rows rs => if rs = [] then none else some rs
    | _ => none

/-- Whether the attempt on period `p` yields non-empty data. -/
def attemptYields (pr : Provider) (p : String) : Bool :=
  (attemptResult pr p).isSome

/-- The per-symbol fallback loop over `periods_to_try`: the fetched series
(if any) together with the list of periods attempted, in order. -/
def fetchSymbol (pr : Provider) : List String → Option (List Bar) × List String
  | [] => (none, [])
  | p :: rest =>
    match attemptResult pr p with
    | some rs => (some rs, [p])
    | none =>
      let r := fetchSymbol pr rest
      (r.1, p :: r.2)

/-- `DataFetcher.fetch_data`: the result dictionary, as an association list in
symbol order.  A symbol is inserted only when some attempted period produced a
non-empty history. -/
def fetch_data (pr : String → Provider) (symbols periods : List String) :
    List (String × List Bar) :=
  symbols.filterMap fun s => (fetchSymbol (pr s) periods).1.map fun rs => (s, rs)

/-- A provider whose `history` call is rate-limited on every period. -/
def rlProvider : Provider :=
  { info := fun _ => .ok, hist := fun _ => .rateLimited }

/-- The period fallback list `[self.period, '3mo', '1mo', '1y']` with the
default preferred period. -/
def defaultPeriods : List String := ["6mo", "3mo", "1mo", "1y"]

theorem attemptResult_ne_nil (pr : Provider) (p : String) (rs : List Bar)
    (h : attemptResult pr p = some rs) : rs ≠ [] := by
  unfold attemptResult at h
  split at h
  · simp at h
  · split at h
    · split at h
      · simp at h
      · simp only [Option.some.injEq] at h
        subst h
        assumption
    · simp at h

theorem fetchSymbol_fst_isSome (pr : Provider) (periods : List String) :
    (fetchSymbol pr periods).1.isSome = periods.any (attemptYields pr) := by
  induction periods with
  | nil => simp [fetchSymbol]
  | cons p rest ih =>
    rcases h : attemptResult pr p with _ | rs <;>
      simp [fetchSymbol, h, attemptYields, ih]

theorem fetchSymbol_fst_ne_nil (pr : Provider) (periods : List String)
    (rs : List Bar) (h : (fetchSymbol pr periods).1 = some rs) : rs ≠ [] := by
  induction periods with
  | nil => simp [fetchSymbol] at h
  | cons p rest ih =>
    rcases ha : attemptResult pr p with _ | rs2
    · simp only [fetchSymbol, ha] at h
      exact ih h
    · simp only [fetchSymbol, ha, Option.some.injEq] at h
      subst h
      exact attemptResult_ne_nil pr p rs2 ha

theorem fetchSymbol_trace_sublist (pr : Provider) (periods : List String) :
    ((fetchSymbol pr periods).2).Sublist periods := by
  induction periods with
  | nil => simp [fetchSymbol]
  | cons p rest ih =>
    rcases h : attemptResult pr p with _ | rs
    · simp only [fetchSymbol, h]
      exact List.Sublist.cons₂ p ih
    · simp only [fetchSymbol, h]
      simp

/-- The claim that a rate-limited period is attempted a second time, stated as
a count over the attempt trace. -/
def retriesSamePeriod (pr : Provider) (periods : List String) (p : String) : Prop :=
  2 ≤ List.count p (fetchSymbol pr periods).2

instance (pr : Provider) (periods : List String) (p : String) :
    Decidable (retriesSamePeriod pr periods p) := by
  unfold retriesSamePeriod
  infer_instance

/-- C2 counterexample: with a provider whose history call is rate-limited on
every period, the fetcher attempts each fallback period exactly once, in
order; in particular the rate-limited preferred period `"6mo"` is never
re-attempted before moving on to `"3mo"`. -/
theorem rate_limit_no_same_period_retry_counterexample :
    (fetchSymbol rlProvider defaultPeriods).2 = ["6mo", "3mo", "1mo", "1y"] ∧
      ¬ retriesSamePeriod rlProvider defaultPeriods "6mo" := by
  constructor
  · rfl
  · decide

/-- C2 amended: on any provider outcome (rate-limited included) the loop moves
on to the next fallback period, so the attempt trace is a subsequence of the
fallback list and, the fallback list having no duplicates, no period is ever
attempted twice for the same symbol. -/
theorem rate_limit_moves_to_next_period (pr : Provider) (periods : List String)
    (h : periods.Nodup) :
    ((fetchSymbol pr periods).2).Sublist periods ∧
      ∀ p, List.count p (fetchSymbol pr periods).2 ≤ 1 := by
  refine ⟨fetchSymbol_trace_sublist pr periods, fun p => ?_⟩
  exact le_trans ((fetchSymbol_trace_sublist pr periods).count_le p)
    (List.nodup_iff_count_le_one.mp h p)

theorem rate_limit_moves_to_next_period_witness :
    defaultPeriods.Nodup ∧
      List.count "6mo" (fetchSymbol rlProvider defaultPeriods).2 ≤ 1 :=
  ⟨by decide, (rate_limit_moves_to_next_period rlProvider defaultPeriods (by decide)).2 "6mo"⟩

theorem fetchSymbol_isSome_iff (pr : Provider) (periods : List String) :
    (fetchSymbol pr periods).1.isSome = true ↔
      ∃ p ∈ periods, attemptYields pr p = true := by
  rw [fetchSymbol_fst_isSome]
  exact List.any_eq_true

theorem mem_fetch_data_keys (pr : String → Provider) (symbols periods : List String)
    (s : String) :
    s ∈ (fetch_data pr symbols periods).map Prod.fst ↔
      s ∈ symbols ∧ (fetchSymbol (pr s) periods).1.isSome = true := by
  simp only [fetch_data, List.map_filterMap, List.mem_filterMap]
  constructor
  · rintro ⟨a, ha, hm⟩
    rcases hf : (fetchSymbol (pr a) periods).1 with _ | rs <;> rw [hf] at hm <;>
      simp at hm
    subst hm
    exact ⟨ha, by rw [hf]; rfl⟩
  · rintro ⟨ha, hs⟩
    refine ⟨s, ha, ?_⟩
    rcases hf : (fetchSymbol (pr s) periods).1 with _ | rs
    · rw [hf] at hs
      simp at hs
    · simp

/-- C6: a symbol is a key of the fetched mapping iff it is one of the input
symbols and some attempted period yields a non-empty history for it; every
series stored in the mapping is non-empty (a symbol that fails under every
fallback period is simply absent), and the fetcher is a total function of the
provider outcomes, erroneous outcomes included, so no provider error escapes
it. -/
theorem fetch_data_key_iff (pr : String → Provider) (symbols periods : List String)
    (s : String) :
    (s ∈ (fetch_data pr symbols periods).map Prod.fst ↔
      s ∈ symbols ∧ ∃ p ∈ periods, attemptYields (pr s) p = true) ∧
    ∀ e ∈ fetch_data pr symbols periods, e.2 ≠ [] := by
  constructor
  · rw [mem_fetch_data_keys, fetchSymbol_isSome_iff]
  · intro e he
    simp only [fetch_data, List.mem_filterMap] at he
    obtain ⟨a, _, hm⟩ := he
    rcases hf : (fetchSymbol (pr a) periods).1 with _ | rs <;> rw [hf] at hm <;>
      simp at hm
    rw [← hm]
    exact fetchSymbol_fst_ne_nil (pr a) periods rs hf

/-- A provider for which the attempt on period `"3mo"` yields one bar and
every other attempt fails. -/
def oneBarProvider : Provider :=
  { info := fun _ => .ok
    hist := fun p => if p = "3mo" then .rows [{ close := 1, volume := 1 }] else .err }

theorem fetch_data_key_iff_witness :
    "A" ∈ (fetch_data (fun _ => oneBarProvider) ["A", "B"] defaultPeriods).map Prod.fst ∧
      "C" ∉ (fetch_data (fun _ => oneBarProvider) ["A", "B"] defaultPeriods).map Prod.fst := by
  constructor
  · exact (fetch_data_key_iff (fun _ => oneBarProvider) ["A", "B"] defaultPeriods "A").1.mpr
      ⟨by decide, "3mo", by decide, by decide⟩
  · intro hmem
    have h := (fetch_data_key_iff (fun _ => oneBarProvider) ["A", "B"] defaultPeriods "C").1.mp hmem
    have : ("C" : String) ∈ ["A", "B"] := h.1
    simp at this

/-! ### Indicators (`TradingStrategy.calculate_indicators`)

The four `talib` calls are embedded over `ℚ`; a row where the library would
emit `NaN` is `none`.  Column accessors take the close series and a row
index. -/

/-- Successive differences of the close series: entry `i` is
`xs (i+1) - xs i`. -/
def diffs (xs : List ℚ) : List ℚ :=
  (xs.zip xs.tail).map fun p => p.2 - p.1

def gainPart (d : ℚ) : ℚ := max d 0

def lossPart (d : ℚ) : ℚ := max (-d) 0

/-- Wilder smoothing used by `talib.RSI`: the first average is the plain mean
of the first `period` values, after which each new value enters with weight
`1/period`.  Entry `k` is the average through value `period - 1 + k`; the
result is empty when fewer than `period` values exist. -/
def wilderAvgs (period : Nat) (vs : List ℚ) : List ℚ :=
  if vs.length < period then []
  else
    List.scanl (fun a v => (a * ((period : ℚ) - 1) + v) / period)
      ((vs.take period).sum / period) (vs.drop period)

/-- `talib.RSI(close, timeperiod=14)` at row `i`, with the ratio convention of
the TA-Lib source (`100 * avgGain / (avgGain + avgLoss)`, and `0` when the
denominator vanishes).  Missing on the first `period` rows. -/
def rsiCol (period : Nat) (xs : List ℚ) (i : Nat) : Option ℚ :=
  if period ≤ i ∧ i < xs.length then
    match (wilderAvgs period ((diffs xs).map gainPart)).get? (i - period),
          (wilderAvgs period ((diffs xs).map lossPart)).get? (i - period) with
    | some ag, some al => some (if ag + al = 0 then 0 else 100 * ag / (ag + al))
    | _, _ => none
  else none

/-- `talib.SMA(close, n)` at row `i`: the mean of the `n` closes ending at
row `i`; missing on the first `n - 1` rows. -/
def smaCol (n : Nat) (xs : List ℚ) (i : Nat) : Option ℚ :=
  if n ≤ i + 1 ∧ i < xs.length then
    some ((((xs.take (i + 1)).drop (i + 1 - n)).sum) / n)
  else none

/-- Exponential moving average seeded, as in TA-Lib, with the plain mean of
the first `n` values: entry `k` corresponds to row `n - 1 + k`; empty when
fewer than `n` values exist. -/
def emaVals (n : Nat) (xs : List ℚ) : List ℚ :=
  if xs.length < n then []
  else
    List.scanl (fun a v => a + (v - a) * (2 / ((n : ℚ) + 1)))
      ((xs.take n).sum / n) (xs.drop n)

/-- The raw MACD line (12-period EMA minus 26-period EMA of the close), with
entry `k` corresponding to row `25 + k`. -/
def macdRawVals (xs : List ℚ) : List ℚ :=
  (((emaVals 12 xs).drop 14).zip (emaVals 26 xs)).map fun p => p.1 - p.2

/-- First output of `talib.MACD(close)` (defaults 12/26/9) at row `i`.
TA-Lib aligns every MACD output on the full lookback `(26-1)+(9-1) = 33`, so
the line is missing before row 33 even though the fast/slow difference exists
from row 25. -/
def macdCol (xs : List ℚ) (i : Nat) : Option ℚ :=
  if 33 ≤ i ∧ i < xs.length then (macdRawVals xs).get? (i - 25) else none

/-- Signal-line output of `talib.MACD(close)` at row `i`: the 9-period EMA of
the raw MACD line, missing before row 33. -/
def macdSignalCol (xs : List ℚ) (i : Nat) : Option ℚ :=
  if 33 ≤ i ∧ i < xs.length then (emaVals 9 (macdRawVals xs)).get? (i - 33)
  else none

theorem length_diffs (xs : List ℚ) : (diffs xs).length = xs.length - 1 := by
  unfold diffs
  rw [List.length_map, List.length_zip, List.length_tail]
  omega

theorem length_wilderAvgs (period : Nat) (vs : List ℚ) (h : period ≤ vs.length) :
    (wilderAvgs period vs).length = vs.length - period + 1 := by
  unfold wilderAvgs
  rw [if_neg (by omega), List.length_scanl, List.length_drop]

theorem length_emaVals (n : Nat) (xs : List ℚ) (h : n ≤ xs.length) :
    (emaVals n xs).length = xs.length - n + 1 := by
  unfold emaVals
  rw [if_neg (by omega), List.length_scanl, List.length_drop]

theorem length_macdRawVals (xs : List ℚ) (h : 26 ≤ xs.length) :
    (macdRawVals xs).length = xs.length - 25 := by
  unfold macdRawVals
  rw [List.length_map, List.length_zip, List.length_drop,
    length_emaVals 12 xs (by omega), length_emaVals 26 xs (by omega)]
  omega

theorem rsiCol_isSome_iff (xs : List ℚ) (i : Nat) :
    (rsiCol 14 xs i).isSome = true ↔ 14 ≤ i ∧ i < xs.length := by
  unfold rsiCol
  by_cases h : 14 ≤ i ∧ i < xs.length
  · rw [if_pos h]
    have hg : i - 14 < (wilderAvgs 14 ((diffs xs).map gainPart)).length := by
      rw [length_wilderAvgs 14 _ (by rw [List.length_map, length_diffs]; omega),
        List.length_map, length_diffs]
      omega
    have hl : i - 14 < (wilderAvgs 14 ((diffs xs).map lossPart)).length := by
      rw [length_wilderAvgs 14 _ (by rw [List.length_map, length_diffs]; omega),
        List.length_map, length_diffs]
      omega
    rw [List.get?_eq_get hg, List.get?_eq_get hl]
    simp [h]
  · rw [if_neg h]
    simp [h]

theorem smaCol_isSome_iff (n : Nat) (xs : List ℚ) (i : Nat) :
    (smaCol n xs i).isSome = true ↔ n ≤ i + 1 ∧ i < xs.length := by
  unfold smaCol
  by_cases h : n ≤ i + 1 ∧ i < xs.length
  · rw [if_pos h]
    simp [h]
  · rw [if_neg h]
    simp [h]

theorem macdCol_isSome_iff (xs : List ℚ) (i : Nat) :
    (macdCol xs i).isSome = true ↔ 33 ≤ i ∧ i < xs.length := by
  unfold macdCol
  by_cases h : 33 ≤ i ∧ i < xs.length
  · rw [if_pos h]
    have hlen : i - 25 < (macdRawVals xs).length := by
      rw [length_macdRawVals xs (by omega)]
      omega
    rw [List.get?_eq_get hlen]
    simp [h]
  · rw [if_neg h]
    simp [h]

theorem macdSignalCol_isSome_iff (xs : List ℚ) (i : Nat) :
    (macdSignalCol xs i).isSome = true ↔ 33 ≤ i ∧ i < xs.length := by
  unfold macdSignalCol
  by_cases h : 33 ≤ i ∧ i < xs.length
  · rw [if_pos h]
    have hraw : 9 ≤ (macdRawVals xs).length := by
      rw [length_macdRawVals xs (by omega)]
      omega
    have hlen : i - 33 < (emaVals 9 (macdRawVals xs)).length := by
      rw [length_emaVals 9 _ hraw, length_macdRawVals xs (by omega)]
      omega
    rw [List.get?_eq_get hlen]
    simp [h]
  · rw [if_neg h]
    simp [h]

/-- C9: for a series with at least 50 rows, every indicator column is defined
from the fiftieth row (index 49) onward, and each column is missing exactly on
the rows before its own warm-up: the 14-period oscillator on the first 14
rows, the 20- and 50-period moving averages on the first 19 resp. 49 rows,
and the MACD line and its signal line on the first 33 rows. -/
theorem indicator_warmup (xs : List ℚ) (i : Nat) (hlen : 50 ≤ xs.length)
    (hi : i < xs.length) :
    (49 ≤ i →
      (rsiCol 14 xs i).isSome = true ∧ (smaCol 20 xs i).isSome = true ∧
        (smaCol 50 xs i).isSome = true ∧ (macdCol xs i).isSome = true ∧
        (macdSignalCol xs i).isSome = true) ∧
    ((rsiCol 14 xs i).isSome = true ↔ 14 ≤ i) ∧
    ((smaCol 20 xs i).isSome = true ↔ 19 ≤ i) ∧
    ((smaCol 50 xs i).isSome = true ↔ 49 ≤ i) ∧
    ((macdCol xs i).isSome = true ↔ 33 ≤ i) ∧
    ((macdSignalCol xs i).isSome = true ↔ 33 ≤ i) := by
  rw [rsiCol_isSome_iff, smaCol_isSome_iff, smaCol_isSome_iff, macdCol_isSome_iff,
    macdSignalCol_isSome_iff]
  omega

/-- A 50-row close series with strictly increasing prices 1, 2, …, 50. -/
def closes50 : List ℚ := (List.range 50).map fun k => ((k : ℚ) + 1)

theorem indicator_warmup_witness :
    50 ≤ closes50.length ∧ 49 < closes50.length ∧
      (smaCol 50 closes50 49).isSome = true ∧ (rsiCol 14 closes50 5).isSome = false := by
  refine ⟨by decide, by decide, ?_, ?_⟩
  · exact ((indicator_warmup closes50 49 (by decide) (by decide)).1 (by omega)).2.2.1
  · have h := ((indicator_warmup closes50 5 (by decide) (by decide)).2.1)
    rcases hb : (rsiCol 14 closes50 5).isSome with _ | _
    · rfl
    · exact absurd (h.mp hb) (by omega)

/-! ### Signal generation (`TradingStrategy.generate_signals`)

Pandas comparisons against a missing value are false; the Bool-valued
comparators below encode that convention. -/

def oLt (a b : Option ℚ) : Bool :=
  match a, b with
  | some x, some y => decide (x < y)
  | _, _ => false

def oGt (a b : Option ℚ) : Bool :=
  match a, b with
  | some x, some y => decide (y < x)
  | _, _ => false

def oLtC (a : Option ℚ) (c : ℚ) : Bool :=
  match a with
  | some x => decide (x < c)
  | none => false

def oGtC (a : Option ℚ) (c : ℚ) : Bool :=
  match a with
  | some x => decide (c < x)
  | none => false

/-- Row `i` of `(df['RSI'] < 30) & (df['20_MA'] > df['50_MA'])`. -/
def buyCond (xs : List ℚ) (i : Nat) : Bool :=
  oLtC (rsiCol 14 xs i) 30 && oGt (smaCol 20 xs i) (smaCol 50 xs i)

/-- Row `i` of `(df['RSI'] > 70) | (df['20_MA'] < df['50_MA'])`. -/
def sellCond (xs : List ℚ) (i : Nat) : Bool :=
  oGtC (rsiCol 14 xs i) 70 || oLt (smaCol 20 xs i) (smaCol 50 xs i)

/-- The three successive `Signal` assignments of `generate_signals`:
initialize to 0, set buy rows to 1, then set sell rows to -1; a later
assignment overwrites an earlier one. -/
def signalOf (buy sell : Bool) : Int :=
  let s : Int := 0
  let s := if buy then 1 else s
  let s := if sell then -1 else s
  s

def signalAt (xs : List ℚ) (i : Nat) : Int :=
  signalOf (buyCond xs i) (sellCond xs i)

/-- The `Signal` column. -/
def signalCol (xs : List ℚ) : List Int :=
  (List.range xs.length).map (signalAt xs)

/-- `df['Signal'].replace(to_replace=0, value=None).ffill()`: replace zeros
by missing values, then carry the last present value forward. -/
def ffillAux (carry : Option Int) : List Int → List (Option Int)
  | [] => []
  | s :: rest =>
    let c := if s = 0 then carry else some s
    c :: ffillAux c rest

/-- The `Position` column. -/
def positionCol (sigs : List Int) : List (Option Int) :=
  ffillAux none sigs

def positionAt (xs : List ℚ) (i : Nat) : Option Int :=
  (positionCol (signalCol xs)).getD i none

/-- C1: on every row, `Signal` is 1 exactly when the buy condition holds and
the sell condition does not; it is -1 whenever the sell condition holds — the
later sell assignment overwrites the buy assignment, so sell takes precedence
when both conditions match — and it is 0 when neither condition holds. -/
theorem signal_rule (xs : List ℚ) (i : Nat) :
    (signalAt xs i = 1 ↔ buyCond xs i = true ∧ sellCond xs i = false) ∧
    (sellCond xs i = true → signalAt xs i = -1) ∧
    (buyCond xs i = false → sellCond xs i = false → signalAt xs i = 0) ∧
    (buyCond xs i = true → sellCond xs i = true → signalAt xs i = -1) := by
  cases hb : buyCond xs i <;> cases hs : sellCond xs i <;>
    simp [signalAt, signalOf, hb, hs]

theorem ffillAux_get? (sigs : List Int) :
    ∀ (carry : Option Int) (i : Nat), i < sigs.length →
      (ffillAux carry sigs).get? i =
        some ((sigs.take (i + 1)).foldl
          (fun acc s => if s = 0 then acc else some s) carry) := by
  induction sigs with
  | nil =>
    intro carry i h
    simp at h
  | cons s rest ih =>
    intro carry i h
    rcases i with _ | j
    · simp [ffillAux]
    · have hj : j < rest.length := by simpa using h
      show (ffillAux (if s = 0 then carry else some s) rest).get? j = _
      rw [ih _ j hj]
      simp

theorem foldl_lastNonZero (l : List Int) :
    ∀ carry : Option Int,
      l.foldl (fun acc s => if s = 0 then acc else some s) carry =
        ((l.filter fun s => decide (s ≠ 0)).getLast?).or carry := by
  induction l with
  | nil =>
    intro carry
    simp
  | cons s rest ih =>
    intro carry
    by_cases hs : s = 0
    · simp only [List.foldl_cons, if_pos hs, ih, List.filter_cons]
      simp [hs]
    · simp only [List.foldl_cons, if_neg hs, ih, List.filter_cons]
      simp only [decide_eq_true_eq] at *
      rw [if_pos hs]
      cases hl : (rest.filter fun t => decide (t ≠ 0)) with
      | nil => simp
      | cons a l2 =>
        rw [List.getLast?_cons_cons]
        cases hgl : (a :: l2).getLast? with
        | none =>
          rw [List.getLast?_eq_none_iff] at hgl
          simp at hgl
        | some v => simp

/-- C5: every generated signal is one of -1, 0, 1, and the `Position` column
at row `i` holds the most recent non-zero signal at or before row `i`, or
stays missing while no non-zero signal has occurred yet. -/
theorem signal_range_position (xs : List ℚ) (i : Nat) (h : i < xs.length) :
    (signalAt xs i = -1 ∨ signalAt xs i = 0 ∨ signalAt xs i = 1) ∧
    (positionCol (signalCol xs)).get? i =
      some (((signalCol xs).take (i + 1)).filter fun s => decide (s ≠ 0)).getLast? := by
  constructor
  · cases hb : buyCond xs i <;> cases hs : sellCond xs i <;>
      simp [signalAt, signalOf, hb, hs]
  · have hlen : i < (signalCol xs).length := by
      simpa [signalCol] using h
    rw [positionCol, ffillAux_get? _ _ i hlen, foldl_lastNonZero, Option.or_none]

/-- A 21-row close series with strictly increasing prices 1, 2, …, 21. -/
def closes21 : List ℚ := (List.range 21).map fun k => ((k : ℚ) + 1)

theorem signal_range_position_witness :
    20 < closes21.length ∧
      (signalAt closes21 20 = -1 ∨ signalAt closes21 20 = 0 ∨ signalAt closes21 20 = 1) :=
  ⟨by decide, (signal_range_position closes21 20 (by decide)).1⟩

/-- C10 counterexample: at row 20 of a strictly increasing 21-row series the
50-period moving average is still missing, yet the generated signal is -1
rather than 0: the oscillator is already defined there, its value 100 exceeds
70, and the sell disjunction fires even though the moving-average comparison
is silenced by the missing value. -/
theorem warmup_signal_counterexample :
    (smaCol 50 closes21 20).isSome = false ∧ signalAt closes21 20 = -1 := by
  constructor
  · rfl
  · with_unfolding_all rfl

theorem signalOf_ne_one (sell : Bool) : signalOf false sell ≠ 1 := by
  cases sell <;> simp [signalOf]

/-- C10 amended: comparisons against a missing value are false, so a row
where the oscillator is still missing always holds (signal 0), and a buy
signal can never fire while any of the three indicators the rule reads is
missing; but a warm-up row where only the 50-period average is missing can
still receive a sell signal through the `oscillator > 70` disjunct. -/
theorem warmup_signal (xs : List ℚ) (i : Nat) :
    (rsiCol 14 xs i = none → signalAt xs i = 0) ∧
    ((rsiCol 14 xs i = none ∨ smaCol 20 xs i = none ∨ smaCol 50 xs i = none) →
      signalAt xs i ≠ 1) := by
  constructor
  · intro h
    have hr : ¬(14 ≤ i ∧ i < xs.length) := by
      intro hc
      have hx := (rsiCol_isSome_iff xs i).mpr hc
      rw [h] at hx
      simp at hx
    have hm20 : smaCol 20 xs i = none := by
      have hx : ¬((smaCol 20 xs i).isSome = true) := by
        rw [smaCol_isSome_iff]
        omega
      cases hs : smaCol 20 xs i with
      | none => rfl
      | some v =>
        rw [hs] at hx
        simp at hx
    simp [signalAt, signalOf, buyCond, sellCond, h, hm20, oLtC, oGtC, oLt]
  · intro h
    have hb : buyCond xs i = false := by
      rcases h with h | h | h
      · simp [buyCond, h, oLtC]
      · simp [buyCond, h, oGt]
      · cases hs : smaCol 20 xs i with
        | none => simp [buyCond, hs, oGt]
        | some v => simp [buyCond, h, hs, oGt]
    rw [signalAt, hb]
    exact signalOf_ne_one _

theorem warmup_signal_witness :
    rsiCol 14 closes21 5 = none ∧ signalAt closes21 5 = 0 := by
  have h : rsiCol 14 closes21 5 = none := by decide
  exact ⟨h, (warmup_signal closes21 5).1 h⟩

/-! ### Label preparation (`MLModel.prepare_data`) -/

/-- Row `i` of `np.where(df['Close'].shift(-1) > df['Close'], 1, 0)`.  On the
last row the shifted close is missing, the numpy comparison against `NaN` is
false, and the label is 0. -/
def targetAt (xs : List ℚ) (i : Nat) : Nat :=
  match xs.get? (i + 1), xs.get? i with
  | some nxt, some cur => if cur < nxt then 1 else 0
  | _, _ => 0

/-- Row `i` survives `df.dropna()`: every column of the signal frame must be
present.  The OHLCV columns, `Signal` and `Target` are never missing; the five
indicator columns and the forward-filled `Position` may be. -/
def keptRow (xs : List ℚ) (i : Nat) : Bool :=
  (rsiCol 14 xs i).isSome && (smaCol 20 xs i).isSome && (smaCol 50 xs i).isSome &&
    (macdCol xs i).isSome && (macdSignalCol xs i).isSome && (positionAt xs i).isSome

/-- One feature row, `['RSI', 'MACD', 'Volume', '20_MA', '50_MA']`.  The
`fillna(0)` following `dropna` can no longer see a missing value, so `getD 0`
only ever fires on rows that were dropped anyway. -/
structure FeatRow where
  rsi : ℚ
  macd : ℚ
  volume : ℚ
  ma20 : ℚ
  ma50 : ℚ
  deriving DecidableEq, Repr

def featRowAt (bars : List Bar) (i : Nat) : FeatRow :=
  { rsi := (rsiCol 14 (bars.map Bar.close) i).getD 0
    macd := (macdCol (bars.map Bar.close) i).getD 0
    volume := ((bars.get? i).map Bar.volume).getD 0
    ma20 := (smaCol 20 (bars.map Bar.close) i).getD 0
    ma50 := (smaCol 50 (bars.map Bar.close) i).getD 0 }

/-- `MLModel.prepare_data`: the feature matrix and the label vector surviving
the target construction and `dropna`. -/
def prepare_data (bars : List Bar) : List FeatRow × List Nat :=
  ((((List.range bars.length).filter fun i => keptRow (bars.map Bar.close) i).map
      (featRowAt bars)),
    (((List.range bars.length).filter fun i => keptRow (bars.map Bar.close) i).map
      (targetAt (bars.map Bar.close))))

/-- A 50-row price series with strictly increasing closes 1, 2, …, 50. -/
def bars50 : List Bar := (List.range 50).map fun k => { close := ((k : ℚ) + 1), volume := 1 }

/-- C3, evaluated at the failing input: on a 50-row strictly increasing series
the last row is not dropped.  The missing next close makes the numpy
comparison false, so the last row is labeled 0, and since none of its columns
is missing, `dropna` keeps it: the prepared label vector is exactly `[0]`, the
label of the final row, where the claim requires it to be empty. -/
theorem last_row_keeps_zero_label :
    targetAt (bars50.map Bar.close) 49 = 0 ∧ (prepare_data bars50).2 = [0] := by
  constructor
  · rfl
  · with_unfolding_all rfl

/-! ### Model training (`MLModel.train_models`)

The seeded shuffle of `train_test_split` and the sklearn decision tree are
external collaborators, supplied as an oracle: `split` is the shuffled
partition the seeded permutation would choose, `fit` returns a fitted
predictor.  What is NOT left to the oracle is the error behavior of
`train_test_split`: with `test_size=0.2` the library computes
`n_test = ceil(n/5)`, `n_train = n - n_test`, and raises a `ValueError`
whenever one of the two parts would be empty — an error nothing in
`train_models` or `run_system` catches. -/

structure MLOracle where
  split : List FeatRow → List Nat →
    List FeatRow × List FeatRow × List Nat × List Nat
  fit : List FeatRow → List Nat → (FeatRow → Nat)

/-- `sklearn.model_selection.train_test_split(X, y, test_size=0.2,
random_state=42)`: `none` is the `ValueError` raised when the train or the
test part would be empty, which with a fifth-sized test share happens exactly
on a single-row input (an empty input would raise too, but the caller's
emptiness guard already excludes it); otherwise the seeded shuffle split
`X_train, X_test, y_train, y_test` is returned. -/
def train_test_split (o : MLOracle) (X : List FeatRow) (y : List Nat) :
    Option (List FeatRow × List FeatRow × List Nat × List Nat) :=
  if X.length - (X.length + 4) / 5 = 0 ∨ (X.length + 4) / 5 = 0 then none
  else some (o.split X y)

/-- `sklearn.metrics.accuracy_score`: the fraction of positions where
prediction and truth agree. -/
def accuracy_score (yTrue yPred : List Nat) : ℚ :=
  (((yTrue.zip yPred).filter fun p => p.1 == p.2).length : ℚ) / (yTrue.length : ℚ)

/-- `MLModel.train_models`, as the accuracies dictionary it returns.  A symbol
is skipped exactly when `X.empty or y.empty`; otherwise the split is taken —
and if it raises, the exception propagates out of the loop uncaught (`none`:
no accuracies are returned at all) — the model is fitted on the train part and
the held-out accuracy recorded. -/
def train_models (o : MLOracle) : List (String × List Bar) → Option (List (String × ℚ))
  | [] => some []
  | sd :: rest =>
    if (prepare_data sd.2).1 = [] ∨ (prepare_data sd.2).2 = [] then
      train_models o rest
    else
      match train_test_split o (prepare_data sd.2).1 (prepare_data sd.2).2 with
      | none => none
      | some s =>
        (train_models o rest).map fun accs =>
          (sd.1, accuracy_score s.2.2.2 ((s.2.1).map (o.fit s.1 s.2.2.1))) :: accs

theorem accuracy_score_mem_unit (yTrue yPred : List Nat) :
    0 ≤ accuracy_score yTrue yPred ∧ accuracy_score yTrue yPred ≤ 1 := by
  unfold accuracy_score
  constructor
  · apply div_nonneg <;> positivity
  · rcases Nat.eq_zero_or_pos yTrue.length with h | h
    · rw [h]
      simp
    · rw [div_le_one (by exact_mod_cast h)]
      have hle : ((yTrue.zip yPred).filter fun p => p.1 == p.2).length ≤ yTrue.length := by
        calc ((yTrue.zip yPred).filter fun p => p.1 == p.2).length
            ≤ (yTrue.zip yPred).length := List.length_filter_le _ _
          _ ≤ yTrue.length := by rw [List.length_zip]; omega
      exact_mod_cast hle

/-- A 51-row price series with strictly decreasing closes 100, 99, …, 50. -/
def bars51 : List Bar := (List.range 51).map fun k => { close := ((100 : ℚ) - k), volume := 1 }

/-- A concrete stand-in for the seeded sklearn collaborators: an 80/20-style
deterministic split and a constant-zero tree. -/
def simpleOracle : MLOracle :=
  { split := fun X y => (X.take (X.length - 1), X.drop (X.length - 1),
      y.take (y.length - 1), y.drop (y.length - 1))
    fit := fun _ _ => fun _ => 0 }

/-- C4 counterexample: on a 51-row strictly decreasing series every prepared
label is 0 — one single label class — yet the trainer does not skip the
symbol: the split succeeds on the two surviving rows, the model is fitted and
an accuracy is recorded for the symbol. -/
theorem single_class_not_skipped_counterexample :
    (prepare_data bars51).2 = [0, 0] ∧
      ((prepare_data bars51).2).dedup.length = 1 ∧
      train_models simpleOracle [("RELIANCE.NS", bars51)] =
        some [("RELIANCE.NS", 1)] := by
  refine ⟨?_, ?_, ?_⟩ <;> with_unfolding_all rfl

/-- C4 amended: whenever training completes and returns an accuracies
dictionary, a symbol was skipped exactly when its prepared feature matrix or
label vector was empty: every symbol with non-empty prepared sets has an
accuracy recorded — a non-empty single-class label set is fitted, not
skipped — and every recorded symbol had non-empty prepared sets; every
recorded accuracy lies in [0, 1].  (Training does not always complete: the
split raises uncaught on a single-row prepared set, which is when no
accuracies dictionary is returned at all.) -/
theorem train_models_skip_and_accuracy (o : MLOracle)
    (signals : List (String × List Bar)) (accs : List (String × ℚ))
    (h : train_models o signals = some accs) :
    (∀ e ∈ accs, 0 ≤ e.2 ∧ e.2 ≤ 1) ∧
    (∀ sd ∈ signals, (prepare_data sd.2).1 ≠ [] → (prepare_data sd.2).2 ≠ [] →
      sd.1 ∈ accs.map Prod.fst) ∧
    (∀ s ∈ accs.map Prod.fst, ∃ bars, (s, bars) ∈ signals ∧
      (prepare_data bars).1 ≠ [] ∧ (prepare_data bars).2 ≠ []) := by
  induction signals generalizing accs with
  | nil =>
    simp only [train_models, Option.some.injEq] at h
    subst h
    exact ⟨by simp, by simp, by simp⟩
  | cons sd rest ih =>
    simp only [train_models] at h
    split at h
    next hskip =>
      obtain ⟨ha, hb, hc⟩ := ih accs h
      refine ⟨ha, ?_, ?_⟩
      · intro sd2 hmem h1 h2
        rcases List.mem_cons.mp hmem with rfl | hmem2
        · exact absurd hskip (by simp [h1, h2])
        · exact hb sd2 hmem2 h1 h2
      · intro s hs
        obtain ⟨bars, hbars, hb1, hb2⟩ := hc s hs
        exact ⟨bars, List.mem_cons_of_mem _ hbars, hb1, hb2⟩
    next hskip =>
      rcases hsplit : train_test_split o (prepare_data sd.2).1 (prepare_data sd.2).2
        with _ | s
      · rw [hsplit] at h
        simp at h
      · rw [hsplit] at h
        rcases hrest : train_models o rest with _ | accsRest
        · rw [hrest] at h
          simp at h
        · rw [hrest] at h
          simp only [Option.map_some', Option.some.injEq] at h
          subst h
          obtain ⟨ha, hb, hc⟩ := ih accsRest hrest
          push_neg at hskip
          refine ⟨?_, ?_, ?_⟩
          · intro e he
            rcases List.mem_cons.mp he with rfl | he2
            · exact accuracy_score_mem_unit _ _
            · exact ha e he2
          · intro sd2 hmem h1 h2
            rcases List.mem_cons.mp hmem with rfl | hmem2
            · simp
            · simp only [List.map_cons]
              exact List.mem_cons_of_mem _ (hb sd2 hmem2 h1 h2)
          · intro s2 hs2
            rw [List.map_cons] at hs2
            rcases List.mem_cons.mp hs2 with rfl | hs3
            · exact ⟨sd.2, by simp, hskip.1, hskip.2⟩
            · obtain ⟨bars, hbars, hb1, hb2⟩ := hc s2 hs3
              exact ⟨bars, List.mem_cons_of_mem _ hbars, hb1, hb2⟩

theorem train_models_skip_and_accuracy_witness :
    train_models simpleOracle [("X", bars51)] = some [("X", 1)] ∧
      "X" ∈ ([("X", (1 : ℚ))] : List (String × ℚ)).map Prod.fst := by
  have h : train_models simpleOracle [("X", bars51)] = some [("X", 1)] := by
    with_unfolding_all rfl
  have hy : (prepare_data bars51).2 = [0, 0] := by with_unfolding_all rfl
  have hX : (prepare_data bars51).1.length = 2 := by with_unfolding_all rfl
  have h1 : (prepare_data bars51).1 ≠ [] := by
    intro hc
    rw [hc] at hX
    simp at hX
  have h2 : (prepare_data bars51).2 ≠ [] := by
    rw [hy]
    simp
  exact ⟨h, (train_models_skip_and_accuracy simpleOracle [("X", bars51)]
    [("X", 1)] h).2.1 ("X", bars51) (by simp) h1 h2⟩

/-! ### Reporting and orchestration (`GoogleSheetsLogger`, `TelegramNotifier`,
`TradingSystem.run_system`)

What a run observably does to the spreadsheet and messaging endpoints is
which calls it attempts.  Endpoint outcomes (success, or an error that the
corresponding `try` block catches and logs) are oracle inputs carried in the
configuration; the reporting functions below return the attempted calls. -/

inductive Effect
  | sheetsTradesAppend
  | sheetsPortfolioAppend
  | telegramPost
  deriving DecidableEq, Repr

/-- Constructor of `GoogleSheetsLogger`: the sheet handle exists only when
the credentials file is present and authorization plus `open` succeed; a
missing file returns early and an initialization error is caught, leaving the
handle empty either way. -/
def initSheet (credsFileExists openSucceeds : Bool) : Option Unit :=
  if credsFileExists && openSucceeds then some () else none

/-- `GoogleSheetsLogger.log_trades`: with no sheet handle it logs and returns
without touching the endpoint; otherwise it attempts one `append_rows`, and a
failing endpoint (`appendOk = false`) is caught and logged, never raised. -/
def log_trades (sheet : Option Unit) (appendOk : Bool) : List Effect :=
  match sheet with
  | none => []
  | some _ => [.sheetsTradesAppend]

/-- `GoogleSheetsLogger.log_portfolio`, with the same guard and the same
catch-all as `log_trades`. -/
def log_portfolio (sheet : Option Unit) (appendOk : Bool) : List Effect :=
  match sheet with
  | none => []
  | some _ => [.sheetsPortfolioAppend]

/-- `TelegramNotifier.send_alert`: with no bot token the base url is never
built, and with no chat id the method returns before posting; otherwise it
posts once, and a non-200 response or a raised error is caught and logged. -/
def send_alert (tokenSet chatIdSet : Bool) (postOk : Bool) : List Effect :=
  if tokenSet && chatIdSet then [.telegramPost] else []

inductive RunStatus
  | aborted
  | errored
  | completed
  deriving DecidableEq, Repr

/-- Observable outcome of one orchestration run: terminal status (`aborted` is
the logged early return on an empty fetch; `errored` is an uncaught exception
escaping `run_system`, which kills the process before any report), the signal
frames handed to the trainer, the accuracies the trainer returned, and the
attempted external calls in order. -/
structure RunOut where
  status : RunStatus
  signals : List (String × List Bar)
  accuracies : List (String × ℚ)
  effects : List Effect
  deriving Repr

structure SysConfig where
  credsFileExists : Bool
  openSucceeds : Bool
  tokenSet : Bool
  chatIdSet : Bool
  tradesAppendOk : Bool
  portfolioAppendOk : Bool
  telegramPostOk : Bool
  deriving DecidableEq, Repr

/-- `TradingSystem.run_system`: fetch, abort on an empty mapping, otherwise
generate signals (the frames whose derived columns the accessors above
compute), train the models, and attempt the three reports in order.  Nothing
in `run_system` guards the `train_models` call, so an uncaught split error
there escapes before any report is attempted (`errored`: the local
`accuracies` is never assigned and no effect happens). -/
def run_system (pr : String → Provider) (symbols periods : List String)
    (o : MLOracle) (cfg : SysConfig) : RunOut :=
  if fetch_data pr symbols periods = [] then
    { status := .aborted, signals := [], accuracies := [], effects := [] }
  else
    match train_models o (fetch_data pr symbols periods) with
    | none =>
      { status := .errored, signals := fetch_data pr symbols periods,
        accuracies := [], effects := [] }
    | some accs =>
      { status := .completed
        signals := fetch_data pr symbols periods
        accuracies := accs
        effects :=
          log_trades (initSheet cfg.credsFileExists cfg.openSucceeds)
              cfg.tradesAppendOk ++
            log_portfolio (initSheet cfg.credsFileExists cfg.openSucceeds)
              cfg.portfolioAppendOk ++
            send_alert cfg.tokenSet cfg.chatIdSet cfg.telegramPostOk }

/-- C7: when the fetcher returns an empty mapping the orchestrator logs and
returns normally (the embedding is a total function, so nothing is raised)
with no signal output, no trained accuracy, and no spreadsheet or messaging
attempt. -/
theorem run_aborts_on_empty_fetch (pr : String → Provider)
    (symbols periods : List String) (o : MLOracle) (cfg : SysConfig)
    (h : fetch_data pr symbols periods = []) :
    run_system pr symbols periods o cfg =
      { status := .aborted, signals := [], accuracies := [], effects := [] } := by
  unfold run_system
  rw [if_pos h]

/-- A provider whose history call fails with a non-rate-limit error on every
period. -/
def failProvider : Provider :=
  { info := fun _ => .ok, hist := fun _ => .err }

def allOnCfg : SysConfig :=
  { credsFileExists := true, openSucceeds := true, tokenSet := true,
    chatIdSet := true, tradesAppendOk := true, portfolioAppendOk := true,
    telegramPostOk := true }

theorem run_aborts_on_empty_fetch_witness :
    fetch_data (fun _ => failProvider) ["RELIANCE.NS"] defaultPeriods = [] ∧
      run_system (fun _ => failProvider) ["RELIANCE.NS"] defaultPeriods
          simpleOracle allOnCfg =
        { status := .aborted, signals := [], accuracies := [], effects := [] } := by
  have h : fetch_data (fun _ => failProvider) ["RELIANCE.NS"] defaultPeriods = [] := by
    decide
  exact ⟨h, run_aborts_on_empty_fetch (fun _ => failProvider) ["RELIANCE.NS"]
    defaultPeriods simpleOracle allOnCfg h⟩

/-- A provider that returns the 50-row strictly increasing series on every
period. -/
def bars50Provider : Provider :=
  { info := fun _ => .ok, hist := fun _ => .rows bars50 }

/-- C8 amended: with the spreadsheet credential absent, or its client
initialization failing, both sheet operations are no-ops (no append
attempted, nothing raised); provided model training returns — the uncaught
split error on a single-row prepared set is the one way it does not — the run
still completes and the messaging digest is still attempted whenever token
and chat id are configured; and the attempted calls and the completed status
are identical under every combination of endpoint outcomes, so each of the
three reporting sub-operations tolerates an unavailable endpoint without
failing the run. -/
theorem reporting_degrades_independently (pr : String → Provider)
    (symbols periods : List String) (o : MLOracle) (cfg : SysConfig)
    (hdata : fetch_data pr symbols periods ≠ [])
    (htrain : (train_models o (fetch_data pr symbols periods)).isSome = true)
    (hsheet : cfg.credsFileExists = false ∨ cfg.openSucceeds = false) :
    (run_system pr symbols periods o cfg).status = .completed ∧
    Effect.sheetsTradesAppend ∉ (run_system pr symbols periods o cfg).effects ∧
    Effect.sheetsPortfolioAppend ∉ (run_system pr symbols periods o cfg).effects ∧
    (cfg.tokenSet = true → cfg.chatIdSet = true →
      Effect.telegramPost ∈ (run_system pr symbols periods o cfg).effects) ∧
    (∀ cfg2 : SysConfig, cfg2.credsFileExists = cfg.credsFileExists →
      cfg2.openSucceeds = cfg.openSucceeds → cfg2.tokenSet = cfg.tokenSet →
      cfg2.chatIdSet = cfg.chatIdSet →
      (run_system pr symbols periods o cfg2).status = .completed ∧
        (run_system pr symbols periods o cfg2).effects =
          (run_system pr symbols periods o cfg).effects) := by
  obtain ⟨accs, heq⟩ := Option.isSome_iff_exists.mp htrain
  have hs : initSheet cfg.credsFileExists cfg.openSucceeds = none := by
    rcases hsheet with h | h <;> simp [initSheet, h]
  refine ⟨?_, ?_, ?_, ?_, ?_⟩
  · unfold run_system
    rw [if_neg hdata, heq]
  · unfold run_system
    rw [if_neg hdata, heq]
    simp only [log_trades, log_portfolio, hs]
    unfold send_alert
    split <;> simp
  · unfold run_system
    rw [if_neg hdata, heq]
    simp only [log_trades, log_portfolio, hs]
    unfold send_alert
    split <;> simp
  · intro ht hc
    unfold run_system
    rw [if_neg hdata, heq]
    simp [log_trades, log_portfolio, hs, send_alert, ht, hc]
  · intro cfg2 h1 h2 h3 h4
    unfold run_system
    rw [if_neg hdata, if_neg hdata, heq]
    exact ⟨rfl, by simp [log_trades, log_portfolio, send_alert, h1, h2, h3, h4]⟩

def noSheetCfg : SysConfig :=
  { credsFileExists := false, openSucceeds := true, tokenSet := true,
    chatIdSet := true, tradesAppendOk := false, portfolioAppendOk := false,
    telegramPostOk := false }

/-- C8 counterexample: a credential-less configuration with messaging fully
configured, and a provider returning a 50-row series for one symbol.  The
fetch is non-empty, yet the run does not complete and the messaging digest is
never attempted: exactly one row survives `dropna`, so `train_test_split`
raises its empty-train-part error, which nothing catches, before any report.
-/
theorem reporting_crash_counterexample :
    fetch_data (fun _ => bars50Provider) ["RELIANCE.NS"] defaultPeriods =
        [("RELIANCE.NS", bars50)] ∧
      noSheetCfg.credsFileExists = false ∧
      noSheetCfg.tokenSet = true ∧ noSheetCfg.chatIdSet = true ∧
      (run_system (fun _ => bars50Provider) ["RELIANCE.NS"] defaultPeriods
          simpleOracle noSheetCfg).status = RunStatus.errored ∧
      (run_system (fun _ => bars50Provider) ["RELIANCE.NS"] defaultPeriods
          simpleOracle noSheetCfg).effects = [] := by
  refine ⟨?_, rfl, rfl, rfl, ?_, ?_⟩ <;> with_unfolding_all rfl

theorem reporting_degrades_independently_witness :
    fetch_data (fun _ => oneBarProvider) ["INFY.NS"] defaultPeriods ≠ [] ∧
      (train_models simpleOracle (fetch_data (fun _ => oneBarProvider) ["INFY.NS"]
          defaultPeriods)).isSome = true ∧
      (run_system (fun _ => oneBarProvider) ["INFY.NS"] defaultPeriods
          simpleOracle noSheetCfg).status = .completed ∧
      Effect.telegramPost ∈ (run_system (fun _ => oneBarProvider) ["INFY.NS"]
          defaultPeriods simpleOracle noSheetCfg).effects ∧
      Effect.sheetsTradesAppend ∉ (run_system (fun _ => oneBarProvider) ["INFY.NS"]
          defaultPeriods simpleOracle noSheetCfg).effects := by
  have hdata : fetch_data (fun _ => oneBarProvider) ["INFY.NS"] defaultPeriods ≠ [] := by
    decide
  have htrain : (train_models simpleOracle (fetch_data (fun _ => oneBarProvider)
      ["INFY.NS"] defaultPeriods)).isSome = true := by
    with_unfolding_all rfl
  have h := reporting_degrades_independently (fun _ => oneBarProvider) ["INFY.NS"]
    defaultPeriods simpleOracle noSheetCfg hdata htrain (Or.inl rfl)
  exact ⟨hdata, htrain, h.1, h.2.2.2.1 rfl rfl, h.2.1⟩

end Trading
